import Mathlib

/-!
Verification development for the rustybrain online decision-making library.

Shallow embedding: Rust `f64` values are modelled as real numbers (exact
real arithmetic), `u64`/`usize` as `Nat`, `Vec<T>` as `List T`, and the
fallible registry operations as `Except`-returning functions.  Each
definition mirrors the corresponding Rust item, keeping its name.
-/

/-! ## Rolling-window utilities (src/metrics/reward_tracker.rs, src/reward_normalizer.rs) -/

/-- Embeds `RewardTracker` (src/metrics/reward_tracker.rs): a fixed-capacity
rolling window of recent rewards. -/
structure RewardTracker where
  window : Nat
  values : List ℝ

namespace RewardTracker

/-- Embeds `RewardTracker::new(window)`; the source asserts `window > 0`, which
callers supply as a hypothesis where needed. -/
def new (window : Nat) : RewardTracker := ⟨window, []⟩

/-- Embeds `RewardTracker::update`: if the buffer is full, `values.remove(0)` drops
the oldest element, then `values.push(reward)` appends. -/
def update (t : RewardTracker) (reward : ℝ) : RewardTracker :=
  let vs := if t.values.length = t.window then t.values.eraseIdx 0 else t.values
  { t with values := vs ++ [reward] }

/-- Embeds `RewardTracker::mean`. -/
noncomputable def mean (t : RewardTracker) : ℝ :=
  if t.values.isEmpty then 0 else t.values.sum / t.values.length

/-- Fold of `min` over a list seeded with its head.  For finite inputs this
equals the Rust fold seeded with `f64::INFINITY`; the `[]` case is the
`unwrap_or(0.0)` taken when the `INFINITY` seed survives (empty buffer). -/
def listMin : List ℝ → ℝ
  | [] => 0
  | x :: xs => xs.foldl min x

/-- Fold of `max` over a list seeded with its head; the `f64::NEG_INFINITY`
seed and `is_finite` check of the source collapse to this on finite reals. -/
def listMax : List ℝ → ℝ
  | [] => 0
  | x :: xs => xs.foldl max x

/-- Embeds `RewardTracker::min`. -/
def min (t : RewardTracker) : ℝ := listMin t.values

/-- Embeds `RewardTracker::max`. -/
def max (t : RewardTracker) : ℝ := listMax t.values

/-- Embeds `RewardTracker::count`. -/
def count (t : RewardTracker) : Nat := t.values.length

end RewardTracker

/-- Embeds `RewardNormalizer` (src/reward_normalizer.rs): same rolling window,
plus sigmoid-of-z-score normalization. -/
structure RewardNormalizer where
  window : Nat
  values : List ℝ

namespace RewardNormalizer

/-- Embeds `RewardNormalizer::new(window)`; the source asserts `window > 0`. -/
def new (window : Nat) : RewardNormalizer := ⟨window, []⟩

/-- Embeds `RewardNormalizer::update`: identical FIFO mechanics to the tracker. -/
def update (rn : RewardNormalizer) (reward : ℝ) : RewardNormalizer :=
  let vs := if rn.values.length = rn.window then rn.values.eraseIdx 0 else rn.values
  { rn with values := vs ++ [reward] }

/-- Embeds `RewardNormalizer::mean` (private helper in the source). -/
noncomputable def mean (rn : RewardNormalizer) : ℝ := rn.values.sum / rn.values.length

/-- Embeds `RewardNormalizer::std` (population standard deviation, dividing by n). -/
noncomputable def std (rn : RewardNormalizer) (mean : ℝ) : ℝ :=
  Real.sqrt ((rn.values.map (fun x => (x - mean) ^ 2)).sum / rn.values.length)

/-- Embeds `RewardNormalizer::normalized`: 0.5 on an empty window or zero standard
deviation, otherwise the sigmoid of the z-score. -/
noncomputable def normalized (rn : RewardNormalizer) (reward : ℝ) : ℝ :=
  if rn.values.isEmpty then 0.5
  else
    let mean := rn.mean
    let std := rn.std mean
    if std = 0 then 0.5
    else
      let z := (reward - mean) / std
      1 / (1 + Real.exp (-z))

end RewardNormalizer

/-! ## HillClimber1D (src/optimizer/mod.rs) -/

/-- Embeds `HillClimber1D`: deterministic 1-D hill climber with step adaptation. -/
structure HillClimber1D where
  x : ℝ
  dir : ℝ
  step : ℝ
  min_step : ℝ
  grow : ℝ
  shrink : ℝ
  last_reward : Option ℝ
  last_suggested : Option ℝ

namespace HillClimber1D

/-- Embeds `HillClimber1D::with_params`; the source asserts `step > 0`,
`min_step > 0`, `grow > 1`, `shrink ∈ [0,1)`. -/
def with_params (x0 step min_step grow shrink : ℝ) : HillClimber1D :=
  ⟨x0, 1, step, min_step, grow, shrink, none, none⟩

/-- Embeds `HillClimber1D::new`. -/
def new (x0 : ℝ) : HillClimber1D := with_params x0 0.5 0.1 1.1 0.5

/-- Embeds `Optimizer::suggest` for `HillClimber1D`. -/
def suggest (h : HillClimber1D) : ℝ × HillClimber1D :=
  let s := match h.last_suggested with
    | none => h.x
    | some _ => h.x + h.dir * h.step
  (s, { h with last_suggested := some s })

/-- Embeds `Optimizer::observe` for `HillClimber1D`: first observation adopts the
suggestion; later ones grow the step on improvement (`reward >= prev`) or
reverse direction and shrink the step on regression; any other state is a
no-op. -/
noncomputable def observe (h : HillClimber1D) (reward : ℝ) : HillClimber1D :=
  match h.last_reward, h.last_suggested with
  | none, some s => { h with x := s, last_reward := some reward }
  | some prev_r, some s =>
      if reward ≥ prev_r then
        { h with x := s, step := h.step * h.grow, last_reward := some reward }
      else
        { h with dir := -h.dir, step := Max.max (h.step * h.shrink) h.min_step }
  | _, _ => h

/-- Embeds `Optimizer::param`. -/
def param (h : HillClimber1D) : ℝ := h.x

/-- Embeds `Optimizer::reset`. -/
def reset (h : HillClimber1D) (x0 : ℝ) : HillClimber1D :=
  { h with x := x0, dir := 1, step := Max.max h.step h.min_step,
           last_reward := none, last_suggested := none }

end HillClimber1D

/-! ## Bandit strategies (src/bandit/epsilon_greedy.rs, src/bandit/ucb1.rs) -/

/-- Abstract model of the seeded `StdRng`: two oracle streams (one for
`gen::<f64>()`, one for `gen_range`) and a position counter advanced by each
draw.  The source seeds the generator with a fixed constant; here the whole
generator is a parameter of the construction. -/
structure StdRng where
  floats : Nat → ℝ
  ints : Nat → Nat
  idx : Nat

namespace StdRng

/-- Embeds `rng.gen::<f64>()`: draws the next float and advances the generator.
Well-formed generators produce values in `[0, 1)`. -/
def gen (r : StdRng) : ℝ × StdRng := (r.floats r.idx, { r with idx := r.idx + 1 })

/-- Embeds `rng.gen_range(0..n)`: draws a uniform index below `n` and advances. -/
def gen_range (r : StdRng) (n : Nat) : Nat × StdRng :=
  (r.ints r.idx % n, { r with idx := r.idx + 1 })

/-- A generator whose float stream stays inside `[0, 1)`, as `gen::<f64>()`
guarantees in the source. -/
def WellFormed (r : StdRng) : Prop := ∀ i, 0 ≤ r.floats i ∧ r.floats i < 1

end StdRng

/-- A concrete well-formed generator (all draws 0), used to instantiate
universally quantified statements. -/
def constRng : StdRng := ⟨fun _ => 0, fun _ => 0, 0⟩

/-- The scanning loop shared by `EpsilonGreedy::argmax` and the UCB1 score
loop: starting from best index `bi` with best value `bv`, scan the remaining
values `l` (positioned from index `i`), replacing the best on a strict
increase. -/
noncomputable def scanMax : List ℝ → Nat → Nat → ℝ → Nat
  | [], _, bi, _ => bi
  | v :: vs, i, bi, bv => if bv < v then scanMax vs (i + 1) i v else scanMax vs (i + 1) bi bv

/-- The full `max_index`/`max_value` loop, seeded with index 0 and
`f64::NEG_INFINITY`: on a nonempty list of (finite) reals the first element
always replaces the seed, so the loop is `scanMax` from the head; the `[]`
case returns the initial `max_index = 0`. -/
noncomputable def selectMaxIdx : List ℝ → Nat
  | [] => 0
  | v :: vs => scanMax vs 1 0 v

/-- Embeds `EpsilonGreedy` (src/bandit/epsilon_greedy.rs). -/
structure EpsilonGreedy where
  epsilon : ℝ
  counts : List Nat
  values : List ℝ
  rng : StdRng

namespace EpsilonGreedy

/-- Embeds `EpsilonGreedy::new(num_arms, epsilon)`; the source asserts
`num_arms > 0` and `epsilon ∈ [0, 1]`, and seeds the generator with a fixed
constant (modelled as the `rng` parameter). -/
def new (num_arms : Nat) (epsilon : ℝ) (rng : StdRng) : EpsilonGreedy :=
  ⟨epsilon, List.replicate num_arms 0, List.replicate num_arms 0, rng⟩

/-- Embeds `EpsilonGreedy::argmax`: lowest index of the strictly greatest value. -/
noncomputable def argmax (a : EpsilonGreedy) : Nat := selectMaxIdx a.values

/-- Embeds `EpsilonGreedy::select_arm`: explore with probability `epsilon`, else
exploit via `argmax`; either way the generator advances. -/
noncomputable def select_arm (a : EpsilonGreedy) : Nat × EpsilonGreedy :=
  let (p, rng1) := a.rng.gen
  if p < a.epsilon then
    let (j, rng2) := rng1.gen_range a.values.length
    (j, { a with rng := rng2 })
  else
    (a.argmax, { a with rng := rng1 })

/-- Embeds `EpsilonGreedy::update`: incremental running-mean update. -/
noncomputable def update (a : EpsilonGreedy) (chosen_arm : Nat) (reward : ℝ) : EpsilonGreedy :=
  let n := a.counts.getD chosen_arm 0 + 1
  let value := a.values.getD chosen_arm 0
  let new_value := value + (reward - value) / (n : ℝ)
  { a with counts := a.counts.set chosen_arm n, values := a.values.set chosen_arm new_value }

end EpsilonGreedy

/-- First index holding a zero count: embedding of
`counts.iter().enumerate().find(|(_, &n)| n == 0)` (the returned pair's
index component). -/
def findZeroIdx : List Nat → Option Nat
  | [] => none
  | n :: rest => if n = 0 then some 0 else (findZeroIdx rest).map (· + 1)

/-- Embeds `Ucb1` (src/bandit/ucb1.rs). -/
structure Ucb1 where
  c : ℝ
  counts : List Nat
  values : List ℝ

namespace Ucb1

/-- Embeds `Ucb1::new(num_arms, c)`; the source asserts `num_arms > 0` and
`c ≥ 0`. -/
def new (num_arms : Nat) (c : ℝ) : Ucb1 :=
  ⟨c, List.replicate num_arms 0, List.replicate num_arms 0⟩

/-- Embeds `Ucb1::select_arm`: cold-start on the first arm with zero count,
otherwise the strict-greatest UCB1 score `value + c * sqrt(2 ln t / n)`. -/
noncomputable def select_arm (b : Ucb1) : Nat :=
  let total : Nat := b.counts.sum
  match findZeroIdx b.counts with
  | some idx => idx
  | none =>
    let t : ℝ := (total : ℝ)
    selectMaxIdx ((List.range b.values.length).map (fun i =>
      b.values.getD i 0 + b.c * Real.sqrt (2 * Real.log t / (b.counts.getD i 0 : ℝ))))

/-- Embeds `Ucb1::update`: the same incremental running-mean rule. -/
noncomputable def update (b : Ucb1) (chosen_arm : Nat) (reward : ℝ) : Ucb1 :=
  let n := b.counts.getD chosen_arm 0 + 1
  let old_value := b.values.getD chosen_arm 0
  let new_value := old_value + (reward - old_value) / (n : ℝ)
  { b with counts := b.counts.set chosen_arm n, values := b.values.set chosen_arm new_value }

end Ucb1

/-- The rewards supplied for arm `i` by a sequence of `(arm, reward)`
update calls, in order. -/
def armRewards (i : Nat) (ups : List (Nat × ℝ)) : List ℝ :=
  (ups.filter (fun u => u.1 == i)).map (fun u => u.2)

/-- Folding a sequence of update calls into an epsilon-greedy instance. -/
noncomputable def EpsilonGreedy.applyUpdates (a : EpsilonGreedy)
    (ups : List (Nat × ℝ)) : EpsilonGreedy :=
  ups.foldl (fun s u => s.update u.1 u.2) a

/-- Folding a sequence of update calls into a UCB1 instance. -/
noncomputable def Ucb1.applyUpdates (b : Ucb1) (ups : List (Nat × ℝ)) : Ucb1 :=
  ups.foldl (fun s u => s.update u.1 u.2) b

/-- The running-mean invariant for a counts/values pair produced by a
history of update calls: each count is the number of rewards supplied for
that arm and each value times its count is their sum (so the value is their
mean), with value 0 at count 0. -/
def MeanInv (k : Nat) (counts : List Nat) (values : List ℝ)
    (ups : List (Nat × ℝ)) : Prop :=
  counts.length = k ∧ values.length = k ∧
  ∀ i, i < k →
    counts.getD i 0 = (armRewards i ups).length ∧
    values.getD i 0 * (counts.getD i 0 : ℝ) = (armRewards i ups).sum ∧
    (counts.getD i 0 = 0 → values.getD i 0 = 0)

/-! ## REST bandit registry (src/service/rest_bandit.rs) -/

/-- A registered epsilon-greedy bandit together with its reward tracker. -/
structure EpsilonGreedyTracked where
  bandit : EpsilonGreedy
  tracker : RewardTracker

/-- The closed tagged union of registered strategies. -/
inductive Strategy where
  | epsilonGreedy (t : EpsilonGreedyTracked)
  | ucb1 (b : Ucb1)

/-- The handlers' error channel (the `(StatusCode, String)` pairs),
restricted to the conditions they actually produce. -/
inductive ApiError where
  | notFound
  | badRequest (msg : String)

/-- The registry state: the id → strategy map.  The `Arc<Mutex<…>>` wrapper
of the source serializes access and is concurrency plumbing; the map is the
state it guards. -/
structure Registry where
  map : List (String × Strategy)

namespace Registry

/-- Embeds `map.get(&id)` / `map.get_mut(&id)` lookup. -/
def lookup (reg : Registry) (id : String) : Option Strategy :=
  (reg.map.find? (fun p => p.1 == id)).map (fun p => p.2)

/-- In-place mutation of the entry at `id`, as through `get_mut`. -/
def setEntry (reg : Registry) (id : String) (s : Strategy) : Registry :=
  ⟨reg.map.map (fun p => if p.1 == id then (p.1, s) else p)⟩

end Registry

/-- The `{mean, min, max, count}` stats payload (`StatsResp`). -/
structure StatsResp where
  mean : ℝ
  min : ℝ
  max : ℝ
  count : Nat

/-- Embeds `select_arm` handler: not-found on an unknown id, otherwise delegates to
the strategy (storing back the advanced generator for epsilon-greedy). -/
noncomputable def select_arm (reg : Registry) (id : String) :
    Registry × Except ApiError Nat :=
  match reg.lookup id with
  | none => (reg, Except.error ApiError.notFound)
  | some (Strategy.epsilonGreedy t) =>
      let (arm, b) := t.bandit.select_arm
      (reg.setEntry id (Strategy.epsilonGreedy ⟨b, t.tracker⟩), Except.ok arm)
  | some (Strategy.ucb1 b) => (reg, Except.ok b.select_arm)

/-- Embeds `update_reward` handler: not-found on an unknown id; epsilon-greedy also
feeds the reward to its tracker. -/
noncomputable def update_reward (reg : Registry) (id : String) (arm : Nat)
    (reward : ℝ) : Registry × Except ApiError Unit :=
  match reg.lookup id with
  | none => (reg, Except.error ApiError.notFound)
  | some (Strategy.epsilonGreedy t) =>
      (reg.setEntry id
        (Strategy.epsilonGreedy ⟨t.bandit.update arm reward, t.tracker.update reward⟩),
       Except.ok ())
  | some (Strategy.ucb1 b) =>
      (reg.setEntry id (Strategy.ucb1 (b.update arm reward)), Except.ok ())

/-- Embeds `get_stats` handler: tracker statistics for epsilon-greedy; for UCB1 the
mean over per-arm means, `INFINITY`-seeded min/max folds over the per-arm
means (head-seeded on the nonempty lists the registry creates), and the
total pull count. -/
noncomputable def get_stats (reg : Registry) (id : String) :
    Except ApiError StatsResp :=
  match reg.lookup id with
  | none => Except.error ApiError.notFound
  | some (Strategy.epsilonGreedy t) =>
      Except.ok ⟨t.tracker.mean, t.tracker.min, t.tracker.max, t.tracker.count⟩
  | some (Strategy.ucb1 b) =>
      Except.ok ⟨b.values.sum / (b.values.length : ℝ),
        RewardTracker.listMin b.values, RewardTracker.listMax b.values,
        b.counts.sum⟩

/-! ## Claim C4: strict FIFO eviction of the rolling windows -/

/-- A full window's insertion drops exactly the head (the oldest element). -/
lemma pushList_full (w : Nat) (vs : List ℝ) (r : ℝ) (hw : 0 < w)
    (hfull : vs.length = w) :
    (if vs.length = w then vs.eraseIdx 0 else vs) ++ [r] = vs.tail ++ [r] := by
  rw [if_pos hfull]
  cases vs with
  | nil => simp at hfull; omega
  | cons x xs => simp [List.eraseIdx]

/-- Window insertion never pushes the length past the capacity. -/
lemma pushList_len (w : Nat) (vs : List ℝ) (r : ℝ) (hw : 0 < w)
    (hle : vs.length ≤ w) :
    ((if vs.length = w then vs.eraseIdx 0 else vs) ++ [r]).length ≤ w := by
  by_cases hfull : vs.length = w
  · rw [if_pos hfull]
    cases vs with
    | nil => simp at hfull; omega
    | cons x xs =>
      simp at hfull
      simp [List.eraseIdx]
      omega
  · rw [if_neg hfull]
    simp
    omega

/-- C4: once a rolling window (tracker or normalizer) is at capacity, each
update drops exactly the oldest element before appending, so the length
never exceeds the capacity; and the concrete window-3 scenario fed
1,2,3,4,5 ends with buffer [3,4,5], mean 4, min 3, max 5, count 3. -/
theorem rolling_window_fifo :
    (∀ (t : RewardTracker) (r : ℝ), 0 < t.window → t.values.length = t.window →
        (t.update r).values = t.values.tail ++ [r]) ∧
    (∀ (t : RewardTracker) (r : ℝ), 0 < t.window → t.values.length ≤ t.window →
        (t.update r).values.length ≤ t.window) ∧
    (∀ (rn : RewardNormalizer) (r : ℝ), 0 < rn.window → rn.values.length = rn.window →
        (rn.update r).values = rn.values.tail ++ [r]) ∧
    (∀ (rn : RewardNormalizer) (r : ℝ), 0 < rn.window → rn.values.length ≤ rn.window →
        (rn.update r).values.length ≤ rn.window) ∧
    ((((((RewardTracker.new 3).update 1).update 2).update 3).update 4).update 5).values
        = [3, 4, 5] ∧
    ((((((RewardTracker.new 3).update 1).update 2).update 3).update 4).update 5).mean = 4 ∧
    ((((((RewardTracker.new 3).update 1).update 2).update 3).update 4).update 5).min = 3 ∧
    ((((((RewardTracker.new 3).update 1).update 2).update 3).update 4).update 5).max = 5 ∧
    ((((((RewardTracker.new 3).update 1).update 2).update 3).update 4).update 5).count = 3 := by
  refine ⟨?_, ?_, ?_, ?_, ?_, ?_, ?_, ?_, ?_⟩
  · intro t r hw hfull
    show (if t.values.length = t.window then t.values.eraseIdx 0 else t.values) ++ [r]
        = t.values.tail ++ [r]
    exact pushList_full t.window t.values r hw hfull
  · intro t r hw hle
    show ((if t.values.length = t.window then t.values.eraseIdx 0 else t.values) ++ [r]).length
        ≤ t.window
    exact pushList_len t.window t.values r hw hle
  · intro rn r hw hfull
    show (if rn.values.length = rn.window then rn.values.eraseIdx 0 else rn.values) ++ [r]
        = rn.values.tail ++ [r]
    exact pushList_full rn.window rn.values r hw hfull
  · intro rn r hw hle
    show ((if rn.values.length = rn.window then rn.values.eraseIdx 0 else rn.values) ++ [r]).length
        ≤ rn.window
    exact pushList_len rn.window rn.values r hw hle
  · simp [RewardTracker.new, RewardTracker.update]
  · simp [RewardTracker.new, RewardTracker.update, RewardTracker.mean]
    norm_num
  · simp [RewardTracker.new, RewardTracker.update, RewardTracker.min, RewardTracker.listMin]
    norm_num [min_def]
  · simp [RewardTracker.new, RewardTracker.update, RewardTracker.max, RewardTracker.listMax]
    norm_num [max_def]
  · simp [RewardTracker.new, RewardTracker.update, RewardTracker.count]

/-- Witness for C4: the FIFO-eviction clause applied to a concrete full
window. -/
theorem rolling_window_fifo_witness :
    (0 < (RewardTracker.mk 3 [1, 2, 3]).window ∧
      (RewardTracker.mk 3 [1, 2, 3]).values.length = (RewardTracker.mk 3 [1, 2, 3]).window) ∧
    ((RewardTracker.mk 3 [1, 2, 3]).update 4).values = [2, 3, 4] := by
  refine ⟨⟨by norm_num, by simp⟩, ?_⟩
  have := rolling_window_fifo.1 (RewardTracker.mk 3 [1, 2, 3]) 4 (by norm_num) (by simp)
  simpa using this

/-! ## Claim C8: HillClimber1D regression branch -/

/-- C8: when both `last_reward` and `last_suggested` are set and the new
reward is strictly below the last one, `observe` negates `dir`, sets `step`
to `max (step * shrink) min_step`, and changes nothing else (in particular
`x` and `last_reward` are untouched). -/
theorem hillclimber_regression_branch (h : HillClimber1D) (pr s reward : ℝ)
    (hr : h.last_reward = some pr) (hs : h.last_suggested = some s)
    (hlt : reward < pr) :
    h.observe reward =
      { h with dir := -h.dir, step := Max.max (h.step * h.shrink) h.min_step } := by
  unfold HillClimber1D.observe
  rw [hr, hs]
  simp [not_le.mpr hlt]

/-- Witness for C8 at a concrete climber state. -/
theorem hillclimber_regression_branch_witness :
    (HillClimber1D.mk 2 1 0.4 0.1 1.1 0.5 (some 5) (some 2.4)).observe 3 =
      HillClimber1D.mk 2 (-1) (Max.max (0.4 * 0.5) 0.1) 0.1 1.1 0.5 (some 5) (some 2.4) := by
  have := hillclimber_regression_branch
    (HillClimber1D.mk 2 1 0.4 0.1 1.1 0.5 (some 5) (some 2.4)) 5 2.4 3
    rfl rfl (by norm_num)
  simpa using this

/-! ## Claim C10: observe with no pending suggestion is a no-op -/

/-- C10: when `last_suggested` is unset, `observe` leaves the whole climber
state unchanged (the wildcard arm of the source match). -/
theorem hillclimber_observe_noop (h : HillClimber1D) (reward : ℝ)
    (hs : h.last_suggested = none) : h.observe reward = h := by
  unfold HillClimber1D.observe
  rw [hs]
  cases h.last_reward <;> rfl

/-- Witness for C10 at a freshly constructed climber. -/
theorem hillclimber_observe_noop_witness :
    (HillClimber1D.new 7).observe 3 = HillClimber1D.new 7 :=
  hillclimber_observe_noop (HillClimber1D.new 7) 3 rfl

/-! ## Claim C1: running-mean invariant -/

lemma getD_set_eq_of_lt {α : Type _} (l : List α) (i : Nat) (x d : α)
    (h : i < l.length) : (l.set i x).getD i d = x := by
  rw [List.getD_eq_getElem _ _ (by simpa using h)]
  simp [List.getElem_set]

lemma getD_set_ne {α : Type _} (l : List α) (i j : Nat) (x d : α)
    (hne : j ≠ i) : (l.set i x).getD j d = l.getD j d := by
  simp [List.getD_eq_getD_get?, List.getElem?_set_ne hne.symm]

lemma armRewards_append (i arm : Nat) (r : ℝ) (ups : List (Nat × ℝ)) :
    armRewards i (ups ++ [(arm, r)]) =
      if arm = i then armRewards i ups ++ [r] else armRewards i ups := by
  by_cases h : arm = i <;>
    simp [armRewards, List.filter_append, List.filter_cons, h]

lemma armRewards_nil (i : Nat) : armRewards i [] = [] := rfl

/-- One update call preserves the running-mean invariant. -/
lemma meanInv_step (k : Nat) (counts : List Nat) (values : List ℝ)
    (ups : List (Nat × ℝ)) (arm : Nat) (r : ℝ)
    (h : MeanInv k counts values ups) (harm : arm < k) :
    MeanInv k (counts.set arm (counts.getD arm 0 + 1))
      (values.set arm (values.getD arm 0 +
        (r - values.getD arm 0) / ((counts.getD arm 0 + 1 : Nat) : ℝ)))
      (ups ++ [(arm, r)]) := by
  obtain ⟨hcl, hvl, hinv⟩ := h
  refine ⟨by simp [hcl], by simp [hvl], ?_⟩
  intro i hi
  obtain ⟨hc, hv, hz⟩ := hinv i hi
  by_cases hia : i = arm
  · subst hia
    have hlc : i < counts.length := by omega
    have hlv : i < values.length := by omega
    rw [getD_set_eq_of_lt _ _ _ _ hlc, getD_set_eq_of_lt _ _ _ _ hlv,
      armRewards_append, if_pos rfl]
    have hn : ((counts.getD i 0 + 1 : Nat) : ℝ) ≠ 0 := by
      exact_mod_cast Nat.succ_ne_zero (counts.getD i 0)
    refine ⟨by rw [List.length_append, hc]; simp, ?_, by simp⟩
    have expand : (values.getD i 0 +
          (r - values.getD i 0) / ((counts.getD i 0 + 1 : Nat) : ℝ)) *
            ((counts.getD i 0 + 1 : Nat) : ℝ)
        = values.getD i 0 * ((counts.getD i 0 : Nat) : ℝ) + r := by
      field_simp
      ring
    rw [expand, hv]
    simp
  · rw [getD_set_ne _ _ _ _ _ hia, getD_set_ne _ _ _ _ _ hia, armRewards_append,
      if_neg (fun hai => hia hai.symm)]
    exact ⟨hc, hv, hz⟩

lemma meanInv_init (k : Nat) :
    MeanInv k (List.replicate k 0) (List.replicate k 0) [] := by
  refine ⟨by simp, by simp, ?_⟩
  intro i hi
  simp [armRewards_nil, List.getD_eq_getD_get?]

/-- Deriving the arithmetic-mean form from the invariant (with `0/0 = 0`
covering the untouched-arm case, where the value is exactly `0`). -/
lemma meanInv_mean (k : Nat) (counts : List Nat) (values : List ℝ)
    (ups : List (Nat × ℝ)) (h : MeanInv k counts values ups)
    (i : Nat) (hi : i < k) :
    counts.getD i 0 = (armRewards i ups).length ∧
    values.getD i 0 = (armRewards i ups).sum / ((armRewards i ups).length : ℝ) := by
  obtain ⟨-, -, hinv⟩ := h
  obtain ⟨hc, hv, hz⟩ := hinv i hi
  refine ⟨hc, ?_⟩
  rcases Nat.eq_zero_or_pos (armRewards i ups).length with hlen | hlen
  · have hc0 : counts.getD i 0 = 0 := by rw [hc, hlen]
    have hnil : armRewards i ups = [] := List.length_eq_zero.mp hlen
    rw [hz hc0, hnil]
    simp
  · have hne : (((armRewards i ups).length : Nat) : ℝ) ≠ 0 := by
      exact_mod_cast hlen.ne'
    rw [eq_div_iff hne, ← hc, hv]

lemma epsApplyUpdates_append (a : EpsilonGreedy)
    (ups : List (Nat × ℝ)) (u : Nat × ℝ) :
    a.applyUpdates (ups ++ [u]) = (a.applyUpdates ups).update u.1 u.2 := by
  simp [EpsilonGreedy.applyUpdates, List.foldl_append]

lemma ucbApplyUpdates_append (b : Ucb1) (ups : List (Nat × ℝ)) (u : Nat × ℝ) :
    b.applyUpdates (ups ++ [u]) = (b.applyUpdates ups).update u.1 u.2 := by
  simp [Ucb1.applyUpdates, List.foldl_append]

lemma epsilonGreedy_meanInv (k : Nat) (eps : ℝ) (rng : StdRng)
    (ups : List (Nat × ℝ)) (h : ∀ u ∈ ups, u.1 < k) :
    MeanInv k ((EpsilonGreedy.new k eps rng).applyUpdates ups).counts
      ((EpsilonGreedy.new k eps rng).applyUpdates ups).values ups := by
  induction ups using List.reverseRecOn with
  | nil => exact meanInv_init k
  | append_singleton ups u ih =>
    have hups : ∀ u ∈ ups, u.1 < k := fun v hv => h v (by simp [hv])
    have hu : u.1 < k := h u (by simp)
    rw [epsApplyUpdates_append]
    exact meanInv_step k _ _ ups u.1 u.2 (ih hups) hu

lemma ucb1_meanInv (k : Nat) (c : ℝ) (ups : List (Nat × ℝ))
    (h : ∀ u ∈ ups, u.1 < k) :
    MeanInv k ((Ucb1.new k c).applyUpdates ups).counts
      ((Ucb1.new k c).applyUpdates ups).values ups := by
  induction ups using List.reverseRecOn with
  | nil => exact meanInv_init k
  | append_singleton ups u ih =>
    have hups : ∀ u ∈ ups, u.1 < k := fun v hv => h v (by simp [hv])
    have hu : u.1 < k := h u (by simp)
    rw [ucbApplyUpdates_append]
    exact meanInv_step k _ _ ups u.1 u.2 (ih hups) hu

/-- C1: for both bandit kinds, after any sequence of in-range updates each
arm's count is the number of rewards supplied for it and each arm's value is
their arithmetic mean, and at construction all counts are 0 and all values
are 0. -/
theorem bandit_running_mean_invariant :
    (∀ (k : Nat) (eps : ℝ) (rng : StdRng) (ups : List (Nat × ℝ)),
      (∀ u ∈ ups, u.1 < k) → ∀ i, i < k →
        ((EpsilonGreedy.new k eps rng).counts.getD i 0 = 0 ∧
          (EpsilonGreedy.new k eps rng).values.getD i 0 = 0) ∧
        ((EpsilonGreedy.new k eps rng).applyUpdates ups).counts.getD i 0
            = (armRewards i ups).length ∧
        ((EpsilonGreedy.new k eps rng).applyUpdates ups).values.getD i 0
            = (armRewards i ups).sum / ((armRewards i ups).length : ℝ)) ∧
    (∀ (k : Nat) (c : ℝ) (ups : List (Nat × ℝ)),
      (∀ u ∈ ups, u.1 < k) → ∀ i, i < k →
        ((Ucb1.new k c).counts.getD i 0 = 0 ∧
          (Ucb1.new k c).values.getD i 0 = 0) ∧
        ((Ucb1.new k c).applyUpdates ups).counts.getD i 0
            = (armRewards i ups).length ∧
        ((Ucb1.new k c).applyUpdates ups).values.getD i 0
            = (armRewards i ups).sum / ((armRewards i ups).length : ℝ)) := by
  constructor
  · intro k eps rng ups h i hi
    refine ⟨⟨?_, ?_⟩, ?_⟩
    · simp [EpsilonGreedy.new, List.getD_eq_getD_get?]
    · simp [EpsilonGreedy.new, List.getD_eq_getD_get?]
    · exact meanInv_mean k _ _ ups (epsilonGreedy_meanInv k eps rng ups h) i hi
  · intro k c ups h i hi
    refine ⟨⟨?_, ?_⟩, ?_⟩
    · simp [Ucb1.new, List.getD_eq_getD_get?]
    · simp [Ucb1.new, List.getD_eq_getD_get?]
    · exact meanInv_mean k _ _ ups (ucb1_meanInv k c ups h) i hi

/-- Witness for C1: one arm updated with rewards 1 and 3 holds count 2 and
mean 2. -/
theorem bandit_running_mean_invariant_witness :
    ((∀ u ∈ [((0 : Nat), (1 : ℝ)), (0, 3)], u.1 < 1) ∧ (0 : Nat) < 1) ∧
    ((EpsilonGreedy.new 1 0 constRng).applyUpdates
        [((0 : Nat), (1 : ℝ)), (0, 3)]).counts.getD 0 0 = 2 ∧
    ((EpsilonGreedy.new 1 0 constRng).applyUpdates
        [((0 : Nat), (1 : ℝ)), (0, 3)]).values.getD 0 0 = 2 := by
  have harms : ∀ u ∈ [((0 : Nat), (1 : ℝ)), (0, 3)], u.1 < 1 := by
    intro u hu
    simp only [List.mem_cons, List.not_mem_nil, or_false] at hu
    rcases hu with h | h <;> (rw [h]; norm_num)
  have happ := (bandit_running_mean_invariant.1 1 0 constRng
    [((0 : Nat), (1 : ℝ)), (0, 3)] harms 0 (by norm_num)).2
  have harm : armRewards 0 [((0 : Nat), (1 : ℝ)), (0, 3)] = [1, 3] := by
    simp [armRewards, List.filter_cons]
  rw [harm] at happ
  refine ⟨⟨harms, by norm_num⟩, happ.1.trans (by norm_num), happ.2.trans ?_⟩
  norm_num

/-! ## Claim C7: registry not-found atomicity -/

/-- C7: on an id absent from the registry map, `select_arm`,
`update_reward` and `get_stats` all fail with not-found and return the
registry completely unchanged. -/
theorem registry_not_found_atomic (reg : Registry) (id : String)
    (h : reg.lookup id = none) :
    select_arm reg id = (reg, Except.error ApiError.notFound) ∧
    (∀ (arm : Nat) (reward : ℝ),
      update_reward reg id arm reward = (reg, Except.error ApiError.notFound)) ∧
    get_stats reg id = Except.error ApiError.notFound := by
  refine ⟨?_, ?_, ?_⟩
  · unfold select_arm
    rw [h]
  · intro arm reward
    unfold update_reward
    rw [h]
  · unfold get_stats
    rw [h]

/-- Witness for C7 on the empty registry. -/
theorem registry_not_found_atomic_witness :
    (Registry.mk []).lookup "nope" = none ∧
    select_arm (Registry.mk []) "nope"
      = (Registry.mk [], Except.error ApiError.notFound) := by
  have h : (Registry.mk []).lookup "nope" = none := rfl
  exact ⟨h, (registry_not_found_atomic (Registry.mk []) "nope" h).1⟩

/-! ## Claim C6: stats semantics per strategy kind -/

lemma foldl_min_le_init (xs : List ℝ) : ∀ a : ℝ, xs.foldl Min.min a ≤ a := by
  induction xs with
  | nil => simp
  | cons x xs ih =>
    intro a
    exact le_trans (ih (Min.min a x)) (min_le_left a x)

lemma foldl_min_le_mem (xs : List ℝ) : ∀ (a x : ℝ), x ∈ xs → xs.foldl Min.min a ≤ x := by
  induction xs with
  | nil => simp
  | cons y ys ih =>
    intro a x hx
    rcases List.mem_cons.mp hx with hh | hh
    · subst hh
      exact le_trans (foldl_min_le_init ys (Min.min a x)) (min_le_right a x)
    · exact ih (Min.min a y) x hh

lemma foldl_min_mem (xs : List ℝ) :
    ∀ a : ℝ, xs.foldl Min.min a = a ∨ xs.foldl Min.min a ∈ xs := by
  induction xs with
  | nil => intro a; left; rfl
  | cons y ys ih =>
    intro a
    rcases ih (Min.min a y) with hh | hh
    · rcases min_choice a y with hm | hm
      · left; rw [List.foldl_cons, hh, hm]
      · right; rw [List.foldl_cons, hh, hm]; exact List.mem_cons_self y ys
    · right; exact List.mem_cons_of_mem y hh

lemma foldl_max_ge_init (xs : List ℝ) : ∀ a : ℝ, a ≤ xs.foldl Max.max a := by
  induction xs with
  | nil => simp
  | cons x xs ih =>
    intro a
    exact le_trans (le_max_left a x) (ih (Max.max a x))

lemma foldl_max_ge_mem (xs : List ℝ) : ∀ (a x : ℝ), x ∈ xs → x ≤ xs.foldl Max.max a := by
  induction xs with
  | nil => simp
  | cons y ys ih =>
    intro a x hx
    rcases List.mem_cons.mp hx with hh | hh
    · subst hh
      exact le_trans (le_max_right a x) (foldl_max_ge_init ys (Max.max a x))
    · exact ih (Max.max a y) x hh

lemma foldl_max_mem (xs : List ℝ) :
    ∀ a : ℝ, xs.foldl Max.max a = a ∨ xs.foldl Max.max a ∈ xs := by
  induction xs with
  | nil => intro a; left; rfl
  | cons y ys ih =>
    intro a
    rcases ih (Max.max a y) with hh | hh
    · rcases max_choice a y with hm | hm
      · left; rw [List.foldl_cons, hh, hm]
      · right; rw [List.foldl_cons, hh, hm]; exact List.mem_cons_self y ys
    · right; exact List.mem_cons_of_mem y hh

/-- On a nonempty list, the `INFINITY`-seeded min fold picks out a member
that bounds the whole list from below. -/
lemma listMin_spec (l : List ℝ) (hl : l ≠ []) :
    RewardTracker.listMin l ∈ l ∧ ∀ x ∈ l, RewardTracker.listMin l ≤ x := by
  cases l with
  | nil => exact absurd rfl hl
  | cons x xs =>
    constructor
    · rcases foldl_min_mem xs x with hh | hh
      · rw [RewardTracker.listMin, hh]; exact List.mem_cons_self x xs
      · exact List.mem_cons_of_mem x hh
    · intro y hy
      rcases List.mem_cons.mp hy with hh | hh
      · rw [hh]; exact foldl_min_le_init xs x
      · exact foldl_min_le_mem xs x y hh

/-- Dual fact for the max fold. -/
lemma listMax_spec (l : List ℝ) (hl : l ≠ []) :
    RewardTracker.listMax l ∈ l ∧ ∀ x ∈ l, x ≤ RewardTracker.listMax l := by
  cases l with
  | nil => exact absurd rfl hl
  | cons x xs =>
    constructor
    · rcases foldl_max_mem xs x with hh | hh
      · rw [RewardTracker.listMax, hh]; exact List.mem_cons_self x xs
      · exact List.mem_cons_of_mem x hh
    · intro y hy
      rcases List.mem_cons.mp hy with hh | hh
      · rw [hh]; exact foldl_max_ge_init xs x
      · exact foldl_max_ge_mem xs x y hh

/-- C6: a registered epsilon-greedy instance reports its tracker's
recent-window statistics; a registered UCB1 instance reports the mean of
the per-arm means, the minimum and maximum over the per-arm means, and the
total pull count over all arms. -/
theorem registry_stats_semantics :
    (∀ (reg : Registry) (id : String) (t : EpsilonGreedyTracked),
      reg.lookup id = some (Strategy.epsilonGreedy t) →
        get_stats reg id = Except.ok
          ⟨t.tracker.mean, t.tracker.min, t.tracker.max, t.tracker.count⟩) ∧
    (∀ (reg : Registry) (id : String) (b : Ucb1),
      reg.lookup id = some (Strategy.ucb1 b) → b.values ≠ [] →
        ∃ resp, get_stats reg id = Except.ok resp ∧
          resp.mean = b.values.sum / (b.values.length : ℝ) ∧
          resp.min ∈ b.values ∧ (∀ x ∈ b.values, resp.min ≤ x) ∧
          resp.max ∈ b.values ∧ (∀ x ∈ b.values, x ≤ resp.max) ∧
          resp.count = b.counts.sum) := by
  constructor
  · intro reg id t h
    unfold get_stats
    rw [h]
  · intro reg id b h hne
    refine ⟨⟨b.values.sum / (b.values.length : ℝ),
      RewardTracker.listMin b.values, RewardTracker.listMax b.values,
      b.counts.sum⟩, ?_, rfl, (listMin_spec b.values hne).1,
      (listMin_spec b.values hne).2, (listMax_spec b.values hne).1,
      (listMax_spec b.values hne).2, rfl⟩
    unfold get_stats
    rw [h]

/-- Witness for C6 on a concrete two-arm UCB1 registry entry. -/
theorem registry_stats_semantics_witness :
    ((Registry.mk [("u", Strategy.ucb1 (Ucb1.mk 1 [2, 3] [(0.5 : ℝ), 0.25]))]).lookup "u"
        = some (Strategy.ucb1 (Ucb1.mk 1 [2, 3] [(0.5 : ℝ), 0.25])) ∧
      (Ucb1.mk 1 [2, 3] [(0.5 : ℝ), 0.25]).values ≠ []) ∧
    ∃ resp,
      get_stats (Registry.mk [("u", Strategy.ucb1 (Ucb1.mk 1 [2, 3] [(0.5 : ℝ), 0.25]))]) "u"
        = Except.ok resp ∧ resp.count = 5 := by
  have hlook : (Registry.mk
        [("u", Strategy.ucb1 (Ucb1.mk 1 [2, 3] [(0.5 : ℝ), 0.25]))]).lookup "u"
      = some (Strategy.ucb1 (Ucb1.mk 1 [2, 3] [(0.5 : ℝ), 0.25])) := by
    simp [Registry.lookup]
  have hne : (Ucb1.mk 1 [2, 3] [(0.5 : ℝ), 0.25]).values ≠ [] := by simp
  obtain ⟨resp, hok, -, -, -, -, -, hcount⟩ :=
    registry_stats_semantics.2 _ "u" _ hlook hne
  exact ⟨⟨hlook, hne⟩, resp, hok, by rw [hcount]; rfl⟩

/-! ## Claim C2: UCB1 cold-start rule -/

lemma findZeroIdx_spec (counts : List Nat) :
    ∀ i : Nat, i < counts.length → counts.getD i 0 = 0 →
      (∀ j < i, counts.getD j 0 ≠ 0) → findZeroIdx counts = some i := by
  induction counts with
  | nil => intro i hi; simp at hi
  | cons n rest ih =>
    intro i hi hz hmin
    cases i with
    | zero =>
      rw [List.getD_cons_zero] at hz
      simp [findZeroIdx, hz]
    | succ i =>
      have hn : n ≠ 0 := by
        have := hmin 0 (Nat.succ_pos i)
        rwa [List.getD_cons_zero] at this
      have hi0 : i < rest.length := by simpa using hi
      have hz0 : rest.getD i 0 = 0 := by rwa [List.getD_cons_succ] at hz
      have hmin0 : ∀ j < i, rest.getD j 0 ≠ 0 := by
        intro j hj
        have := hmin (j + 1) (by omega)
        rwa [List.getD_cons_succ] at this
      simp [findZeroIdx, hn, ih i hi0 hz0 hmin0]

/-- C2: whenever some arm has a zero count, `Ucb1::select_arm` returns the
lowest-index such arm; in particular `Ucb1::new(3, c)` with three
select/update(arm, 1.0) rounds visits arms 0, 1, 2 in order. -/
theorem ucb1_cold_start :
    (∀ (b : Ucb1) (i : Nat), i < b.counts.length → b.counts.getD i 0 = 0 →
      (∀ j < i, b.counts.getD j 0 ≠ 0) → b.select_arm = i) ∧
    (∀ c : ℝ,
      (Ucb1.new 3 c).select_arm = 0 ∧
      ((Ucb1.new 3 c).update 0 1).select_arm = 1 ∧
      (((Ucb1.new 3 c).update 0 1).update 1 1).select_arm = 2) := by
  constructor
  · intro b i hi hz hmin
    have hfind := findZeroIdx_spec b.counts i hi hz hmin
    simp [Ucb1.select_arm, hfind]
  · intro c
    refine ⟨?_, ?_, ?_⟩
    · have hfind : findZeroIdx (Ucb1.new 3 c).counts = some 0 := by
        simp [Ucb1.new, List.replicate, findZeroIdx]
      simp [Ucb1.select_arm, hfind]
    · have hc : ((Ucb1.new 3 c).update 0 1).counts = [1, 0, 0] := by
        simp [Ucb1.new, Ucb1.update, List.replicate]
      have hfind : findZeroIdx ((Ucb1.new 3 c).update 0 1).counts = some 1 := by
        rw [hc]
        simp [findZeroIdx]
      simp [Ucb1.select_arm, hfind]
    · have hc : (((Ucb1.new 3 c).update 0 1).update 1 1).counts = [1, 1, 0] := by
        simp [Ucb1.new, Ucb1.update, List.replicate]
      have hfind : findZeroIdx (((Ucb1.new 3 c).update 0 1).update 1 1).counts
          = some 2 := by
        rw [hc]
        simp [findZeroIdx]
      simp [Ucb1.select_arm, hfind]

/-- Witness for C2: a two-arm instance whose first arm was pulled five
times cold-starts on arm 1. -/
theorem ucb1_cold_start_witness :
    ((1 : Nat) < (Ucb1.mk 1 [5, 0] [1, 0]).counts.length ∧
      (Ucb1.mk 1 [5, 0] [1, 0]).counts.getD 1 0 = 0 ∧
      (∀ j < 1, (Ucb1.mk 1 [5, 0] [1, 0]).counts.getD j 0 ≠ 0)) ∧
    (Ucb1.mk 1 [5, 0] [1, 0]).select_arm = 1 := by
  have h1 : (1 : Nat) < (Ucb1.mk 1 [5, 0] [1, 0]).counts.length := by simp
  have h2 : (Ucb1.mk 1 [5, 0] [1, 0]).counts.getD 1 0 = 0 := by simp
  have h3 : ∀ j < 1, (Ucb1.mk 1 [5, 0] [1, 0]).counts.getD j 0 ≠ 0 := by
    intro j hj
    interval_cases j
    simp
  exact ⟨⟨h1, h2, h3⟩, ucb1_cold_start.1 (Ucb1.mk 1 [5, 0] [1, 0]) 1 h1 h2 h3⟩

/-! ## Claim C3: pure-exploit selection at epsilon = 0 -/

/-- The scanning loop returns the least argmax, given the invariant that
`bi` is the least argmax of the prefix already scanned. -/
lemma scanMax_spec (full : List ℝ) (l : List ℝ) :
    ∀ (i bi : Nat) (bv : ℝ),
      full.drop i = l → bi < i → i ≤ full.length →
      full.getD bi 0 = bv →
      (∀ j < i, full.getD j 0 ≤ bv) →
      (∀ j < bi, full.getD j 0 < bv) →
      scanMax l i bi bv < full.length ∧
      (∀ j < full.length, full.getD j 0 ≤ full.getD (scanMax l i bi bv) 0) ∧
      (∀ j < scanMax l i bi bv, full.getD j 0 < full.getD (scanMax l i bi bv) 0) := by
  induction l with
  | nil =>
    intro i bi bv hdrop hbi hilen hbv hle hlt
    have hfull : full.length ≤ i := by
      by_contra hcon
      push_neg at hcon
      have hne : full.drop i ≠ [] := by
        intro hnil
        have := List.drop_eq_nil_iff.mp hnil
        omega
      exact hne hdrop
    rw [show scanMax [] i bi bv = bi from rfl]
    refine ⟨lt_of_lt_of_le hbi hilen, ?_, ?_⟩
    · intro j hj
      rw [hbv]
      exact hle j (by omega)
    · intro j hj
      rw [hbv]
      exact hlt j hj
  | cons v vs ih =>
    intro i bi bv hdrop hbi hilen hbv hle hlt
    have hilt : i < full.length := by
      by_contra hcon
      push_neg at hcon
      rw [List.drop_eq_nil_of_le hcon] at hdrop
      exact List.cons_ne_nil v vs hdrop.symm
    have hgi : full.getD i 0 = v := by
      have h0 : full[i]? = some v := by
        have hd := List.getElem?_drop full i 0
        rw [hdrop] at hd
        simpa using hd.symm
      simp [List.getD_eq_getD_get?, h0]
    have hdrop1 : full.drop (i + 1) = vs := by
      have h1 : (full.drop i).drop 1 = vs := by rw [hdrop]; rfl
      rwa [List.drop_drop] at h1
    show scanMax (v :: vs) i bi bv < full.length ∧ _
    rw [scanMax]
    by_cases hcmp : bv < v
    · rw [if_pos hcmp]
      refine ih (i + 1) i v hdrop1 (by omega) (by omega) hgi ?_ ?_
      · intro j hj
        rcases Nat.lt_succ_iff_lt_or_eq.mp hj with hji | hji
        · exact le_of_lt (lt_of_le_of_lt (hle j hji) hcmp)
        · rw [hji, hgi]
      · intro j hj
        exact lt_of_le_of_lt (hle j (by omega)) hcmp
    · rw [if_neg hcmp]
      push_neg at hcmp
      refine ih (i + 1) bi bv hdrop1 (by omega) (by omega) hbv ?_ hlt
      intro j hj
      rcases Nat.lt_succ_iff_lt_or_eq.mp hj with hji | hji
      · exact hle j hji
      · rw [hji, hgi]; exact hcmp

/-- The full scan (seeded at index 0 and `NEG_INFINITY`) returns the least
index attaining the maximum of a nonempty list. -/
lemma selectMaxIdx_spec (l : List ℝ) (hl : l ≠ []) :
    selectMaxIdx l < l.length ∧
    (∀ j < l.length, l.getD j 0 ≤ l.getD (selectMaxIdx l) 0) ∧
    (∀ j < selectMaxIdx l, l.getD j 0 < l.getD (selectMaxIdx l) 0) := by
  cases l with
  | nil => exact absurd rfl hl
  | cons v vs =>
    have h := scanMax_spec (v :: vs) vs 1 0 v rfl (by omega) (by simp) rfl
      (fun j hj => by interval_cases j; simp) (fun j hj => by omega)
    simpa [selectMaxIdx] using h

lemma EpsilonGreedy.update_epsilon (a : EpsilonGreedy) (arm : Nat) (r : ℝ) :
    (a.update arm r).epsilon = a.epsilon := rfl

lemma EpsilonGreedy.update_rng (a : EpsilonGreedy) (arm : Nat) (r : ℝ) :
    (a.update arm r).rng = a.rng := rfl

lemma EpsilonGreedy.applyUpdates_epsilon (ups : List (Nat × ℝ)) :
    ∀ a : EpsilonGreedy, (a.applyUpdates ups).epsilon = a.epsilon := by
  induction ups with
  | nil => intro a; rfl
  | cons u us ih => intro a; exact ih (a.update u.1 u.2)

lemma EpsilonGreedy.applyUpdates_rng (ups : List (Nat × ℝ)) :
    ∀ a : EpsilonGreedy, (a.applyUpdates ups).rng = a.rng := by
  induction ups with
  | nil => intro a; rfl
  | cons u us ih => intro a; exact ih (a.update u.1 u.2)

lemma EpsilonGreedy.applyUpdates_values_length (ups : List (Nat × ℝ)) :
    ∀ a : EpsilonGreedy, (a.applyUpdates ups).values.length = a.values.length := by
  induction ups with
  | nil => intro a; rfl
  | cons u us ih =>
    intro a
    rw [show a.applyUpdates (u :: us) = (a.update u.1 u.2).applyUpdates us from rfl,
      ih (a.update u.1 u.2)]
    simp [EpsilonGreedy.update]

/-- Selection of a zero-epsilon instance with a well-formed generator never
explores: it returns `argmax` and only advances the generator. -/
lemma select_arm_exploit (a : EpsilonGreedy) (heps : a.epsilon = 0)
    (hwf : a.rng.WellFormed) :
    a.select_arm = (a.argmax, { a with rng := (a.rng.gen).2 }) := by
  have hp : ¬ (a.rng.gen).1 < a.epsilon := by
    rw [heps]
    exact not_lt.mpr (hwf a.rng.idx).1
  simp [EpsilonGreedy.select_arm, hp]

/-- C3: an epsilon-greedy instance constructed with `epsilon = 0` and fed
any update sequence always selects the lowest index attaining the maximum
of `values` (strict scanning comparison), and selection leaves everything
but the generator unchanged, so repeated calls keep returning it. -/
theorem epsilon_zero_pure_exploit (k : Nat) (rng : StdRng) (ups : List (Nat × ℝ))
    (hk : 0 < k) (hwf : rng.WellFormed) :
    ((((EpsilonGreedy.new k 0 rng).applyUpdates ups).select_arm).1
        < ((EpsilonGreedy.new k 0 rng).applyUpdates ups).values.length ∧
      (∀ j < ((EpsilonGreedy.new k 0 rng).applyUpdates ups).values.length,
        ((EpsilonGreedy.new k 0 rng).applyUpdates ups).values.getD j 0 ≤
          ((EpsilonGreedy.new k 0 rng).applyUpdates ups).values.getD
            ((((EpsilonGreedy.new k 0 rng).applyUpdates ups).select_arm).1) 0) ∧
      (∀ j < (((EpsilonGreedy.new k 0 rng).applyUpdates ups).select_arm).1,
        ((EpsilonGreedy.new k 0 rng).applyUpdates ups).values.getD j 0 <
          ((EpsilonGreedy.new k 0 rng).applyUpdates ups).values.getD
            ((((EpsilonGreedy.new k 0 rng).applyUpdates ups).select_arm).1) 0)) ∧
    ((((EpsilonGreedy.new k 0 rng).applyUpdates ups).select_arm).2.epsilon = 0 ∧
      (((EpsilonGreedy.new k 0 rng).applyUpdates ups).select_arm).2.values
        = ((EpsilonGreedy.new k 0 rng).applyUpdates ups).values ∧
      (((EpsilonGreedy.new k 0 rng).applyUpdates ups).select_arm).2.counts
        = ((EpsilonGreedy.new k 0 rng).applyUpdates ups).counts) := by
  set a := (EpsilonGreedy.new k 0 rng).applyUpdates ups with ha
  have heps : a.epsilon = 0 := by
    rw [ha, EpsilonGreedy.applyUpdates_epsilon]
    rfl
  have hrng : a.rng = rng := by
    rw [ha, EpsilonGreedy.applyUpdates_rng]
    rfl
  have hwf0 : a.rng.WellFormed := by rwa [hrng]
  have hsel := select_arm_exploit a heps hwf0
  have hlen : a.values.length = k := by
    rw [ha, EpsilonGreedy.applyUpdates_values_length]
    simp [EpsilonGreedy.new]
  have hne : a.values ≠ [] := by
    intro hnil
    rw [hnil] at hlen
    simp at hlen
    omega
  have hspec := selectMaxIdx_spec a.values hne
  rw [hsel]
  exact ⟨⟨hspec.1, hspec.2.1, hspec.2.2⟩, heps, rfl, rfl⟩

/-- Witness for C3 on a two-arm instance updated once on arm 1. -/
theorem epsilon_zero_pure_exploit_witness :
    ((0 : Nat) < 2 ∧ constRng.WellFormed) ∧
    (((EpsilonGreedy.new 2 0 constRng).applyUpdates
        [((1 : Nat), (2 : ℝ))]).select_arm).1
      < ((EpsilonGreedy.new 2 0 constRng).applyUpdates
          [((1 : Nat), (2 : ℝ))]).values.length := by
  have hwf : constRng.WellFormed := by
    intro i
    constructor <;> norm_num [constRng]
  exact ⟨⟨by norm_num, hwf⟩,
    (epsilon_zero_pure_exploit 2 constRng [((1 : Nat), (2 : ℝ))]
      (by norm_num) hwf).1.1⟩

/-! ## Claim C5: RewardNormalizer contract -/

/-- On a nonempty window with nonzero standard deviation, `normalized` is
exactly the sigmoid of the z-score. -/
lemma normalized_eq_sigmoid (rn : RewardNormalizer) (reward : ℝ)
    (hne : rn.values ≠ []) (hstd : rn.std rn.mean ≠ 0) :
    rn.normalized reward
      = 1 / (1 + Real.exp (-((reward - rn.mean) / rn.std rn.mean))) := by
  simp [RewardNormalizer.normalized, List.isEmpty_iff, hne, hstd]

/-- C5: `normalized` returns exactly 0.5 on an empty window, exactly 0.5
when the population standard deviation is zero, and otherwise the sigmoid
of the z-score, which lies strictly between 0 and 1. -/
theorem normalizer_contract (rn : RewardNormalizer) (reward : ℝ) :
    (rn.values = [] → rn.normalized reward = 0.5) ∧
    (rn.std rn.mean = 0 → rn.normalized reward = 0.5) ∧
    (rn.values ≠ [] → rn.std rn.mean ≠ 0 →
      rn.normalized reward
          = 1 / (1 + Real.exp (-((reward - rn.mean) / rn.std rn.mean))) ∧
      0 < rn.normalized reward ∧ rn.normalized reward < 1) := by
  refine ⟨?_, ?_, ?_⟩
  · intro hnil
    simp [RewardNormalizer.normalized, hnil]
  · intro hstd
    by_cases hnil : rn.values = []
    · simp [RewardNormalizer.normalized, hnil]
    · simp [RewardNormalizer.normalized, List.isEmpty_iff, hnil, hstd]
  · intro hne hstd
    have heq := normalized_eq_sigmoid rn reward hne hstd
    refine ⟨heq, ?_, ?_⟩
    · rw [heq]
      positivity
    · rw [heq, div_lt_one (by positivity)]
      linarith [Real.exp_pos (-((reward - rn.mean) / rn.std rn.mean))]

/-- Witness for C5 on the window [1, 2, 3]. -/
theorem normalizer_contract_witness :
    ((RewardNormalizer.mk 3 [(1 : ℝ), 2, 3]).values ≠ [] ∧
      (RewardNormalizer.mk 3 [(1 : ℝ), 2, 3]).std
        (RewardNormalizer.mk 3 [(1 : ℝ), 2, 3]).mean ≠ 0) ∧
    0 < (RewardNormalizer.mk 3 [(1 : ℝ), 2, 3]).normalized 2.5 ∧
    (RewardNormalizer.mk 3 [(1 : ℝ), 2, 3]).normalized 2.5 < 1 := by
  have hne : (RewardNormalizer.mk 3 [(1 : ℝ), 2, 3]).values ≠ [] := by simp
  have hmean : (RewardNormalizer.mk 3 [(1 : ℝ), 2, 3]).mean = 2 := by
    simp [RewardNormalizer.mean]
    norm_num
  have hstd : (RewardNormalizer.mk 3 [(1 : ℝ), 2, 3]).std
      (RewardNormalizer.mk 3 [(1 : ℝ), 2, 3]).mean ≠ 0 := by
    rw [RewardNormalizer.std, Real.sqrt_ne_zero']
    simp [hmean]
    norm_num
  have h := (normalizer_contract (RewardNormalizer.mk 3 [(1 : ℝ), 2, 3]) 2.5).2.2 hne hstd
  exact ⟨⟨hne, hstd⟩, h.2.1, h.2.2⟩

/-! ## Claim C9: RewardNormalizer monotonicity -/

lemma list_sum_pos_of_mem (l : List ℝ) (x : ℝ) (hx : x ∈ l) (hxpos : 0 < x)
    (hnn : ∀ y ∈ l, 0 ≤ y) : 0 < l.sum := by
  induction l with
  | nil => simp at hx
  | cons a as ih =>
    rw [List.sum_cons]
    rcases List.mem_cons.mp hx with hh | hh
    · have hsum : 0 ≤ as.sum :=
        List.sum_nonneg fun y hy => hnn y (List.mem_cons_of_mem a hy)
      rw [hh] at hxpos
      linarith
    · have ha : 0 ≤ a := hnn a (List.mem_cons_self a as)
      have hpos := ih hh fun y hy => hnn y (List.mem_cons_of_mem a hy)
      linarith

/-- Two distinct stored values force a positive standard deviation. -/
lemma std_pos_of_two_distinct (rn : RewardNormalizer) (v0 v1 : ℝ)
    (h0 : v0 ∈ rn.values) (h1 : v1 ∈ rn.values) (hne01 : v0 ≠ v1) :
    0 < rn.std rn.mean := by
  have hnn : ∀ y ∈ rn.values.map (fun x => (x - rn.mean) ^ 2), 0 ≤ y := by
    intro y hy
    obtain ⟨x, -, rfl⟩ := List.mem_map.mp hy
    positivity
  have hlenpos : 0 < (rn.values.length : ℝ) := by
    have : 0 < rn.values.length := List.length_pos.mpr (by
      intro hcon
      rw [hcon] at h0
      simp at h0)
    exact_mod_cast this
  have hsum : 0 < (rn.values.map (fun x => (x - rn.mean) ^ 2)).sum := by
    rcases eq_or_ne v0 rn.mean with hv0 | hv0
    · have hv1 : v1 - rn.mean ≠ 0 := by
        intro hcon
        exact hne01 (hv0.trans (sub_eq_zero.mp hcon).symm)
      exact list_sum_pos_of_mem _ ((v1 - rn.mean) ^ 2)
        (List.mem_map_of_mem _ h1) (by positivity) hnn
    · have hv0s : v0 - rn.mean ≠ 0 := sub_ne_zero.mpr hv0
      exact list_sum_pos_of_mem _ ((v0 - rn.mean) ^ 2)
        (List.mem_map_of_mem _ h0) (by positivity) hnn
  rw [RewardNormalizer.std, Real.sqrt_pos]
  exact div_pos hsum hlenpos

lemma chain_two_distinct (l : List ℝ) (hchain : l.Chain' (· < ·))
    (h2 : 2 ≤ l.length) : ∃ v0 ∈ l, ∃ v1 ∈ l, v0 ≠ v1 := by
  match l with
  | [] => simp at h2
  | [a] => simp at h2
  | a :: b :: bs =>
    rw [List.chain'_cons] at hchain
    exact ⟨a, List.mem_cons_self a (b :: bs), b,
      List.mem_cons_of_mem a (List.mem_cons_self b bs), ne_of_lt hchain.1⟩

/-- C9: on a window of strictly increasing stored values (two or more, so
the population standard deviation is positive), `normalized` is strictly
monotone in its input. -/
theorem normalizer_monotone (rn : RewardNormalizer) (a b : ℝ)
    (hchain : rn.values.Chain' (· < ·)) (hlen : 2 ≤ rn.values.length)
    (hab : a < b) : rn.normalized a < rn.normalized b := by
  obtain ⟨v0, h0, v1, h1, hne01⟩ := chain_two_distinct rn.values hchain hlen
  have hstd : 0 < rn.std rn.mean := std_pos_of_two_distinct rn v0 v1 h0 h1 hne01
  have hvne : rn.values ≠ [] := by
    intro hcon
    rw [hcon] at hlen
    simp at hlen
  rw [normalized_eq_sigmoid rn a hvne hstd.ne',
    normalized_eq_sigmoid rn b hvne hstd.ne']
  have hz : (a - rn.mean) / rn.std rn.mean < (b - rn.mean) / rn.std rn.mean :=
    div_lt_div_of_pos_right (by linarith) hstd
  have hexp : Real.exp (-((b - rn.mean) / rn.std rn.mean))
      < Real.exp (-((a - rn.mean) / rn.std rn.mean)) :=
    Real.exp_lt_exp.mpr (by linarith)
  have hp1 : 0 < 1 + Real.exp (-((a - rn.mean) / rn.std rn.mean)) := by positivity
  have hp2 : 0 < 1 + Real.exp (-((b - rn.mean) / rn.std rn.mean)) := by positivity
  rw [div_lt_div_iff₀ hp1 hp2]
  linarith

/-- Witness for C9 on the window [1, 2, 3] with inputs 0 < 1. -/
theorem normalizer_monotone_witness :
    ((RewardNormalizer.mk 3 [(1 : ℝ), 2, 3]).values.Chain' (· < ·) ∧
      2 ≤ (RewardNormalizer.mk 3 [(1 : ℝ), 2, 3]).values.length ∧
      (0 : ℝ) < 1) ∧
    (RewardNormalizer.mk 3 [(1 : ℝ), 2, 3]).normalized 0
      < (RewardNormalizer.mk 3 [(1 : ℝ), 2, 3]).normalized 1 := by
  have hchain : (RewardNormalizer.mk 3 [(1 : ℝ), 2, 3]).values.Chain' (· < ·) := by
    simp [List.chain'_cons]
    norm_num
  have hlen : 2 ≤ (RewardNormalizer.mk 3 [(1 : ℝ), 2, 3]).values.length := by simp
  exact ⟨⟨hchain, hlen, by norm_num⟩,
    normalizer_monotone (RewardNormalizer.mk 3 [(1 : ℝ), 2, 3]) 0 1 hchain hlen
      (by norm_num)⟩
